import Mathlib

/-!
Verification of the Dropflow incremental rainflow cycle counter.

Shallow embedding of `src/dropflow.py`.  Python floats are modelled as `ℚ`,
Python ints as `ℤ`, the `_stopper` tuple (empty tuple = falsy) as `Option`,
and the two generator methods as functions from a machine state to the list of
records produced by a full drain together with the successor state.  A
generator run that would raise `IndexError` (the `self._reversals[-1]` access
on an empty list at the end of a drain) is modelled as `none`.
-/

namespace Dropflow

/-- A buffered point `(index, value)`, as stored in `self._reversals`. -/
abbrev Pt : Type := ℤ × ℚ

/-- A cycle record `(range, mean, count, start index, end index)` as produced
by `format_output` in `dropflow.py`. -/
structure Cycle where
  rng : ℚ
  mean : ℚ
  count : ℚ
  i1 : ℤ
  i2 : ℤ
deriving DecidableEq, Repr

/-- `format_output(point1, point2, count)` from `dropflow.py`:
`rng = abs(x1 - x2)`, `mean = 0.5 * (x1 + x2)`. -/
def format_output (p1 p2 : Pt) (count : ℚ) : Cycle :=
  { rng := |p1.2 - p2.2|
    mean := (p1.2 + p2.2) / 2
    count := count
    i1 := p1.1
    i2 := p2.1 }

/-- The state of a `Dropflow` object.  `_x_last`, `_x`, `_d_last` are
initialised to `None` in Python but every read of them in the source is
dominated by a prior write (guarded by `_history_length`), so plain rationals
initialised to `0` are observationally faithful.  `_stopper` starts as the
falsy empty tuple, modelled by `none`. -/
structure State where
  _reversals : List Pt
  _stopper : Option Pt
  _closed_cycles : List Cycle
  _mean : ℚ
  _history_length : ℕ
  _idx_last : ℤ
  _x_last : ℚ
  _x : ℚ
  _d_last : ℚ
deriving DecidableEq, Repr

/-- The freshly constructed (`__init__`) state. -/
def initState : State :=
  { _reversals := []
    _stopper := none
    _closed_cycles := []
    _mean := 0
    _history_length := 0
    _idx_last := 0
    _x_last := 0
    _x := 0
    _d_last := 0 }

/-- `Dropflow.reset`: restores every attribute to its initial value. -/
def reset (_s : State) : State := initState

/-- `Dropflow._check_reversal(x, idx)`.  Note that the first branch stores the
literal `0` into `self._idx_last` (line `self._idx_last = 0`), not `idx`. -/
def check_reversal (s : State) (x : ℚ) (idx : ℤ) : State :=
  if s._history_length = 0 then
    { s with _x_last := x, _idx_last := 0 }
  else if s._history_length = 1 then
    { s with
      _x := x
      _d_last := x - s._x_last
      _reversals := s._reversals ++ [(s._idx_last, s._x_last)]
      _idx_last := idx }
  else if x = s._x then
    { s with _idx_last := idx }
  else
    { s with
      _reversals :=
        if s._d_last * (x - s._x) < 0 then s._reversals ++ [(s._idx_last, s._x)]
        else s._reversals
      _x_last := s._x
      _x := x
      _d_last := x - s._x
      _idx_last := idx
      _stopper := some (idx, x) }

/-- `Dropflow.add_point(x, idx)`: `_check_reversal` followed by the running
mean update (which reads the not-yet-incremented `_history_length`). -/
def add_point (s : State) (x : ℚ) (idx : ℤ) : State :=
  let s1 := check_reversal s x idx
  { s1 with
    _mean := (s1._mean * (s1._history_length : ℚ) + x) / ((s1._history_length : ℚ) + 1)
    _history_length := s1._history_length + 1 }

/-- The `Dropflow.reversals` property: empty below two samples, otherwise the
permanent buffer followed by the stopper when the stopper is truthy. -/
def reversals (s : State) : List Pt :=
  if s._history_length < 2 then [] else s._reversals ++ s._stopper.toList

/-- The three-point closure scan shared by `extract_all_cycles` and
`extract_new_cycles` (the `while i < (len(self._reversals) - 2)` loop).  The
loop index `i` and the buffer are represented zipper-style: `left` is the
already-passed prefix `buffer[0:i]` in reverse, `right` is `buffer[i:]`, so
`i = left.length` and the buffer is `left.reverse ++ right`.  The loop guard
`i < len - 2` is exactly "`right` has at least three points".

* `X < Y`: `i += 1`, i.e. move the head of `right` onto `left`;
* `X ≥ Y` and `i == 0` (`left = []`): emit a half cycle over the first two
  points and `pop(0)` the first point, leaving `i = 0`;
* `X ≥ Y` and `i > 0` (`left ≠ []`): emit a full cycle over `right`'s first
  two points and `pop(i)` twice, leaving `i` unchanged.

Returns the emitted records in order and the buffer left when the loop
exits. -/
def scanBuffer : List Pt → List Pt → List Cycle × List Pt
  | left, p1 :: p2 :: p3 :: rest =>
    if |p3.2 - p2.2| < |p2.2 - p1.2| then
      scanBuffer (p1 :: left) (p2 :: p3 :: rest)
    else
      match left with
      | [] =>
        let res := scanBuffer [] (p2 :: p3 :: rest)
        (format_output p1 p2 (1/2) :: res.1, res.2)
      | _ :: _ =>
        let res := scanBuffer left (p3 :: rest)
        (format_output p1 p2 1 :: res.1, res.2)
  | left, right => ([], left.reverse ++ right)

/-- The trailing `for i in range(len(self._reversals) - 1)` loop: every
remaining adjacent pair is emitted as a half cycle, non-destructively.  (The
`i -= 1` inside the Python loop body has no effect: `for` reassigns `i`.) -/
def halfCycles (b : List Pt) : List Cycle :=
  (b.zip b.tail).map fun q => format_output q.1 q.2 (1/2)

/-- The head of both extractors:
`self._reversals.extend([self._stopper]) if self._stopper and not ignore_stopper else None`. -/
def extRev (s : State) (ig : Bool) : List Pt :=
  if ig then s._reversals else s._reversals ++ s._stopper.toList

/-- The tail of both extractors:
`if not ignore_stopper and self._reversals[-1] == self._stopper: self._reversals.pop()`.
When `ignore_stopper` is true the conjunction short-circuits and
`self._reversals[-1]` is never evaluated; otherwise an empty buffer raises
`IndexError`, modelled as `none`.  A truthy stopper is compared by value with
the last element; the falsy `()` stopper never equals a point pair. -/
def dropStopper (b : List Pt) (stp : Option Pt) (ig : Bool) : Option (List Pt) :=
  if ig then some b
  else
    match b.getLast? with
    | none => none
    | some lastP =>
      match stp with
      | some p => if lastP = p then some b.dropLast else some b
      | none => some b

/-- `Dropflow.extract_all_cycles(ignore_stopper)`, fully drained: appends the
stopper, returns early on the `len(self._closed_cycles) == 0 and
len(self._reversals) < 1` guard, otherwise replays the ledger, runs the
closure scan (whose records are both yielded and appended to
`_closed_cycles`), yields the remaining adjacent pairs as half cycles, and
finally pops the stopper if it is still the last buffer element. -/
def extract_all_cycles (s : State) (ig : Bool) : Option (List Cycle × State) :=
  let rev0 := extRev s ig
  if s._closed_cycles = [] ∧ rev0.length < 1 then
    some ([], { s with _reversals := rev0 })
  else
    let res := scanBuffer [] rev0
    match dropStopper res.2 s._stopper ig with
    | none => none
    | some rev2 =>
      some (s._closed_cycles ++ res.1 ++ halfCycles res.2,
            { s with _reversals := rev2, _closed_cycles := s._closed_cycles ++ res.1 })

/-- `Dropflow.extract_new_cycles(ignore_stopper)`, fully drained: same scan,
but its guard checks only `len(self._reversals) < 1`, nothing is appended to
the ledger, and no ledger replay happens. -/
def extract_new_cycles (s : State) (ig : Bool) : Option (List Cycle × State) :=
  let rev0 := extRev s ig
  if rev0.length < 1 then
    some ([], { s with _reversals := rev0 })
  else
    let res := scanBuffer [] rev0
    match dropStopper res.2 s._stopper ig with
    | none => none
    | some rev2 =>
      some (res.1 ++ halfCycles res.2, { s with _reversals := rev2 })

/-- Feed a list of `(value, index)` samples to `add_point`, oldest first. -/
def runPairs (ps : List (ℚ × ℤ)) : State :=
  ps.foldl (fun s p => add_point s p.1 p.2) initState

/-- Feed a plain series with indices counting up from `i` —
`for idx, point in enumerate(series): add_point(x=point, idx=idx)`. -/
def runFrom (s : State) (i : ℤ) : List ℚ → State
  | [] => s
  | x :: xs => runFrom (add_point s x i) (i + 1) xs

/-- Feed a plain series, enumerated from index 0 — the way the repository's
tests call `add_point`. -/
def run (xs : List ℚ) : State :=
  runFrom initState 0 xs

/-- Modelled from the spec (§4.2): the same three-point scan but "scanning
restarts from position 0 after any removal".  After a removal at `i = 0` the
index is already `0`; after a removal at `i > 0` the whole remaining buffer
(`left.reverse ++ …`) is rescanned from position `0`.  The restart makes the
recursion non-structural, so a fuel argument bounds the number of steps; each
step either moves one point from `right` to `left` or removes a point, so
`(n+1)^2` fuel is ample for a buffer of `n` points and the fallback branch is
never reached. -/
def scanRestartFuel : ℕ → List Pt → List Pt → List Cycle × List Pt
  | 0, left, right => ([], left.reverse ++ right)
  | fuel + 1, left, right =>
    match right with
    | p1 :: p2 :: p3 :: rest =>
      if |p3.2 - p2.2| < |p2.2 - p1.2| then
        scanRestartFuel fuel (p1 :: left) (p2 :: p3 :: rest)
      else
        match left with
        | [] =>
          let res := scanRestartFuel fuel [] (p2 :: p3 :: rest)
          (format_output p1 p2 (1/2) :: res.1, res.2)
        | _ :: _ =>
          let res := scanRestartFuel fuel [] (left.reverse ++ p3 :: rest)
          (format_output p1 p2 1 :: res.1, res.2)
    | _ => ([], left.reverse ++ right)

/-- Modelled from the spec (§4.2): the restart-from-position-0 scan of a whole
buffer, with ample fuel. -/
def scanRestart (b : List Pt) : List Cycle × List Pt :=
  scanRestartFuel ((b.length + 1) * (b.length + 1)) [] b

/-- The values of a point list (used to compare reversal sequences while
ignoring the committed indices). -/
def mapVal (l : List Pt) : List ℚ :=
  l.map Prod.snd

/-- Specification-side characterisation of the stopper: the most recently
added sample that arrived when at least two samples had already been seen and
whose value differed from the current value (a plateau sample never becomes
the stopper).  Computed by a simple fold that is independent of the machine's
buffer and derivative bookkeeping. -/
def stopperStep (st : ℕ × ℚ × Option Pt) (p : ℚ × ℤ) : ℕ × ℚ × Option Pt :=
  if st.1 < 2 then (st.1 + 1, p.1, st.2.2)
  else if p.1 = st.2.1 then (st.1 + 1, st.2.1, st.2.2)
  else (st.1 + 1, p.1, some (p.2, p.1))

/-- The stopper predicted from the raw sample list alone. -/
def stopperSpec (ps : List (ℚ × ℤ)) : Option Pt :=
  (ps.foldl stopperStep (0, 0, none)).2.2

/-- Feed further `(value, index)` samples to an existing machine. -/
def addPairs (s : State) (ps : List (ℚ × ℤ)) : State :=
  ps.foldl (fun t p => add_point t p.1 p.2) s

/-- Records produced by draining `extract_new_cycles` once after `xs`, adding
`more`, and draining it again — the two-call interleaving used to test the
all-cycles/new-cycles equivalence claim. -/
def interleavedOut (xs : List ℚ) (more : List (ℚ × ℤ)) : Option (List Cycle) :=
  match extract_new_cycles (run xs) false with
  | none => none
  | some (o1, s1) =>
    match extract_new_cycles (addPairs s1 more) false with
    | none => none
    | some (o2, _) => some (o1 ++ o2)

/-- The 23-point series of the repository's own regression fixture
`TEST_CASE_2` (in `tests/test_dropflow.py`, also inlined in `dropflow.py`'s
`test()`), with the floats written as exact rationals. -/
def tc2_series : List ℚ :=
  [-3/2, 1, -3, 10, -1, 3, -8, 4, -2, 6, -1, -4, -8, 2, 1, -5, 0, 5/2, -4, 1, 0, 2, -1/2]

/-- The 13 records that the repository's `TEST_CASE_2` fixture expects from
`extract_all_cycles` on `tc2_series`. -/
def tc2_expected : List Cycle :=
  [⟨5/2, -1/4, 1/2, 0, 1⟩, ⟨4, -1, 1/2, 1, 2⟩, ⟨4, 1, 1, 4, 5⟩, ⟨13, 7/2, 1/2, 2, 3⟩,
   ⟨6, 1, 1, 7, 8⟩, ⟨14, -1, 1, 6, 9⟩, ⟨7, -3/2, 1, 13, 15⟩, ⟨1, 1/2, 1, 19, 20⟩,
   ⟨18, 1, 1/2, 3, 12⟩, ⟨21/2, -11/4, 1/2, 12, 17⟩, ⟨13/2, -3/4, 1/2, 17, 18⟩,
   ⟨6, -1, 1/2, 18, 21⟩, ⟨5/2, 3/4, 1/2, 21, 22⟩]

/-- The 14 records that the code actually produces on `tc2_series`. -/
def tc2_actual : List Cycle :=
  [⟨5/2, -1/4, 1/2, 0, 1⟩, ⟨4, -1, 1/2, 1, 2⟩, ⟨4, 1, 1, 4, 5⟩, ⟨6, 1, 1, 7, 8⟩,
   ⟨7, -3/2, 1, 13, 15⟩, ⟨1, 1/2, 1, 19, 20⟩, ⟨13, 7/2, 1/2, 2, 3⟩, ⟨18, 1, 1/2, 3, 6⟩,
   ⟨14, -1, 1/2, 6, 9⟩, ⟨14, -1, 1/2, 9, 12⟩, ⟨21/2, -11/4, 1/2, 12, 17⟩,
   ⟨13/2, -3/4, 1/2, 17, 18⟩, ⟨6, -1, 1/2, 18, 21⟩, ⟨5/2, 3/4, 1/2, 21, 22⟩]

/-- States reachable from a fresh machine by `add_point`, `reset`, and fully
drained extraction calls. -/
inductive Reachable : State → Prop where
  | init : Reachable initState
  | add (s : State) (x : ℚ) (idx : ℤ) : Reachable s → Reachable (add_point s x idx)
  | reset_ (s : State) : Reachable s → Reachable (reset s)
  | extAll (s s' : State) (ig : Bool) (out : List Cycle) :
      Reachable s → extract_all_cycles s ig = some (out, s') → Reachable s'
  | extNew (s s' : State) (ig : Bool) (out : List Cycle) :
      Reachable s → extract_new_cycles s ig = some (out, s') → Reachable s'

/-- The two invariants of reachable states: a non-empty ledger forces a
non-empty reversal buffer (this is what keeps the trailing
`self._reversals[-1]` accesses in bounds), and every ledgered record carries
count 1 or 1/2. -/
def GoodState (s : State) : Prop :=
  (s._closed_cycles ≠ [] → s._reversals ≠ []) ∧
  ∀ r ∈ s._closed_cycles, r.count = 1 ∨ r.count = 1/2

/-- Plateau simulation relation: two states that agree on the rolling window
(`_x`, `_x_last`, `_d_last`), the stopper, and the values (not necessarily
the indices) of the committed reversals, both having seen at least two
samples.  A plateau sample relates its successor state to the unchanged
state, and the relation is preserved by feeding both states the same
sample. -/
def SimR (s t : State) : Prop :=
  s._x = t._x ∧ s._x_last = t._x_last ∧ s._d_last = t._d_last ∧
  s._stopper = t._stopper ∧ mapVal s._reversals = mapVal t._reversals ∧
  2 ≤ s._history_length ∧ 2 ≤ t._history_length

/-- Relation between a machine state and the `stopperStep` fold state used to
characterise the stopper from the raw samples alone. -/
def StopRel (s : State) (f : ℕ × ℚ × Option Pt) : Prop :=
  f.1 = s._history_length ∧ (2 ≤ s._history_length → f.2.1 = s._x) ∧ f.2.2 = s._stopper

/-- Scan step: `X < Y` advances the index without emitting or removing. -/
theorem scan_adv (left rest : List Pt) (p1 p2 p3 : Pt)
    (h : |p3.2 - p2.2| < |p2.2 - p1.2|) :
    scanBuffer left (p1 :: p2 :: p3 :: rest) = scanBuffer (p1 :: left) (p2 :: p3 :: rest) := by
  cases left with
  | nil => rw [scanBuffer.eq_1, if_pos h]
  | cons q L => rw [scanBuffer.eq_2, if_pos h]

/-- Scan step: `X ≥ Y` at position 0 emits a half cycle and drops `p1`. -/
theorem scan_half0 (rest : List Pt) (p1 p2 p3 : Pt)
    (h : ¬ |p3.2 - p2.2| < |p2.2 - p1.2|) :
    scanBuffer [] (p1 :: p2 :: p3 :: rest) =
      (format_output p1 p2 (1/2) :: (scanBuffer [] (p2 :: p3 :: rest)).1,
       (scanBuffer [] (p2 :: p3 :: rest)).2) := by
  rw [scanBuffer.eq_1, if_neg h]

/-- Scan step: `X ≥ Y` at a later position emits a full cycle and drops
`p1` and `p2`. -/
theorem scan_full (q : Pt) (L rest : List Pt) (p1 p2 p3 : Pt)
    (h : ¬ |p3.2 - p2.2| < |p2.2 - p1.2|) :
    scanBuffer (q :: L) (p1 :: p2 :: p3 :: rest) =
      (format_output p1 p2 1 :: (scanBuffer (q :: L) (p3 :: rest)).1,
       (scanBuffer (q :: L) (p3 :: rest)).2) := by
  rw [scanBuffer.eq_2, if_neg h]

/-- The scan loop exits as soon as fewer than three points remain. -/
theorem scan_short (left right : List Pt) (h : right.length < 3) :
    scanBuffer left right = ([], left.reverse ++ right) := by
  apply scanBuffer.eq_3
  intro p1 p2 p3 rest he
  rw [he] at h
  simp only [List.length_cons] at h
  omega

/-- The machine state after feeding the whole `TEST_CASE_2` series. -/
theorem tc2_run_state :
    run tc2_series =
    { _reversals := [(0, -3/2), (1, 1), (2, -3), (3, 10), (4, -1), (5, 3), (6, -8), (7, 4),
                     (8, -2), (9, 6), (12, -8), (13, 2), (15, -5), (17, 5/2), (18, -4),
                     (19, 1), (20, 0), (21, 2)]
      _stopper := some (22, -1/2)
      _closed_cycles := []
      _mean := -11/46
      _history_length := 23
      _idx_last := 22
      _x_last := 2
      _x := -1/2
      _d_last := -5/2 } := by
  norm_num [tc2_series, run, runFrom, add_point, check_reversal, initState]

set_option maxHeartbeats 1000000 in
/-- The stationary-index closure scan over the `TEST_CASE_2` reversal
buffer. -/
theorem tc2_scan_eval :
    scanBuffer [] [((0:ℤ), (-(3/2):ℚ)), (1, 1), (2, -3), (3, 10), (4, -1), (5, 3), (6, -8), (7, 4),
                   (8, -2), (9, 6), (12, -8), (13, 2), (15, -5), (17, 5/2), (18, -4),
                   (19, 1), (20, 0), (21, 2), (22, -(1/2))] =
    ([⟨5/2, -1/4, 1/2, 0, 1⟩, ⟨4, -1, 1/2, 1, 2⟩, ⟨4, 1, 1, 4, 5⟩, ⟨6, 1, 1, 7, 8⟩,
      ⟨7, -3/2, 1, 13, 15⟩, ⟨1, 1/2, 1, 19, 20⟩],
     [(2, -3), (3, 10), (6, -8), (9, 6), (12, -8), (17, 5/2), (18, -4), (21, 2), (22, -1/2)]) := by
  rw [scan_half0 _ _ _ _ (by norm_num [abs_of_nonneg, abs_of_nonpos]),
      scan_half0 _ _ _ _ (by norm_num [abs_of_nonneg, abs_of_nonpos]),
      scan_adv _ _ _ _ _ (by norm_num [abs_of_nonneg, abs_of_nonpos]),
      scan_adv _ _ _ _ _ (by norm_num [abs_of_nonneg, abs_of_nonpos]),
      scan_full _ _ _ _ _ _ (by norm_num [abs_of_nonneg, abs_of_nonpos]),
      scan_adv _ _ _ _ _ (by norm_num [abs_of_nonneg, abs_of_nonpos]),
      scan_full _ _ _ _ _ _ (by norm_num [abs_of_nonneg, abs_of_nonpos]),
      scan_adv _ _ _ _ _ (by norm_num [abs_of_nonneg, abs_of_nonpos]),
      scan_adv _ _ _ _ _ (by norm_num [abs_of_nonneg, abs_of_nonpos]),
      scan_full _ _ _ _ _ _ (by norm_num [abs_of_nonneg, abs_of_nonpos]),
      scan_adv _ _ _ _ _ (by norm_num [abs_of_nonneg, abs_of_nonpos]),
      scan_adv _ _ _ _ _ (by norm_num [abs_of_nonneg, abs_of_nonpos]),
      scan_full _ _ _ _ _ _ (by norm_num [abs_of_nonneg, abs_of_nonpos]),
      scan_short _ _ (by norm_num)]
  norm_num [format_output]

/-- The code's full drained `extract_all_cycles` output on the `TEST_CASE_2`
series. -/
theorem tc2_extract_eval :
    Option.map Prod.fst (extract_all_cycles (run tc2_series) false) = some tc2_actual := by
  rw [tc2_run_state]
  norm_num [-Prod.mk_one_one, -Prod.mk_zero_zero, extract_all_cycles, extRev, tc2_scan_eval,
    halfCycles, dropStopper, format_output, tc2_actual]

/-- Claim C1: at every scan step of either extractor, with three consecutive
buffer points `p1, p2, p3` at scan position `i = left.length` (so the window
starts at buffer position 0 exactly when `left = []`), writing
`X = |p3 - p2|` and `Y = |p2 - p1|`:
if `X < Y` the scan just advances (nothing emitted, nothing removed);
if `X ≥ Y` and the position is 0, a record over `(p1, p2)` with count 0.5 is
emitted and exactly the one point `p1` is removed;
if `X ≥ Y` at a later position, a record over `(p1, p2)` with count 1.0 is
emitted and exactly the two points `p1` and `p2` are removed. -/
theorem c1_scan_step (left rest : List Pt) (p1 p2 p3 : Pt) :
    (|p3.2 - p2.2| < |p2.2 - p1.2| →
      scanBuffer left (p1 :: p2 :: p3 :: rest) = scanBuffer (p1 :: left) (p2 :: p3 :: rest)) ∧
    (¬ |p3.2 - p2.2| < |p2.2 - p1.2| → left = [] →
      scanBuffer left (p1 :: p2 :: p3 :: rest) =
        (format_output p1 p2 (1/2) :: (scanBuffer [] (p2 :: p3 :: rest)).1,
         (scanBuffer [] (p2 :: p3 :: rest)).2)) ∧
    (¬ |p3.2 - p2.2| < |p2.2 - p1.2| → left ≠ [] →
      scanBuffer left (p1 :: p2 :: p3 :: rest) =
        (format_output p1 p2 1 :: (scanBuffer left (p3 :: rest)).1,
         (scanBuffer left (p3 :: rest)).2)) := by
  refine ⟨fun h => ?_, fun h he => ?_, fun h hne => ?_⟩
  · cases left with
    | nil => rw [scanBuffer.eq_1, if_pos h]
    | cons q L => rw [scanBuffer.eq_2, if_pos h]
  · subst he
    rw [scanBuffer.eq_1, if_neg h]
  · cases left with
    | nil => exact absurd rfl hne
    | cons q L => rw [scanBuffer.eq_2, if_neg h]

/-- Witness for C1 at a concrete window with `X < Y`. -/
theorem c1_scan_step_witness :
    scanBuffer [] [((0:ℤ), (0:ℚ)), (1, 10), (2, 2), (3, 3)] =
      scanBuffer [((0:ℤ), (0:ℚ))] [((1:ℤ), (10:ℚ)), (2, 2), (3, 3)] :=
  (c1_scan_step [] [(3, 3)] (0, 0) (1, 10) (2, 2)).1 (by norm_num)

/-- Claim C5 (failing input evaluation): calling `add_point(5, 10)` then
`add_point(7, 11)` — strictly increasing indices that do not start at 0 —
makes `reversals` yield the pair `(0, 5)`, although no sample was ever added
with index 0: the first branch of `_check_reversal` stores the literal `0`
instead of the passed index. -/
theorem c5_first_index_eval :
    reversals (runPairs [(5, 10), (7, 11)]) = [((0:ℤ), (5:ℚ))] ∧
    (0:ℤ) ≠ 10 ∧ (0:ℤ) ≠ 11 := by
  refine ⟨?_, by norm_num, by norm_num⟩
  norm_num [runPairs, add_point, check_reversal, initState, reversals]

/-- Claim C7: on a fresh machine, the series `[]`, `[1]`, `[1, 2]` produce no
records under a fully drained extraction (either extractor), and `[1, 2, 3]`
produces exactly the half cycle `(range 2, mean 2, count 0.5, 0, 2)`. -/
theorem c7_small_series :
    Option.map Prod.fst (extract_all_cycles (run []) false) = some [] ∧
    Option.map Prod.fst (extract_new_cycles (run []) false) = some [] ∧
    Option.map Prod.fst (extract_all_cycles (run [1]) false) = some [] ∧
    Option.map Prod.fst (extract_new_cycles (run [1]) false) = some [] ∧
    Option.map Prod.fst (extract_all_cycles (run [1, 2]) false) = some [] ∧
    Option.map Prod.fst (extract_new_cycles (run [1, 2]) false) = some [] ∧
    Option.map Prod.fst (extract_all_cycles (run [1, 2, 3]) false) = some [⟨2, 2, 1/2, 0, 2⟩] ∧
    Option.map Prod.fst (extract_new_cycles (run [1, 2, 3]) false) = some [⟨2, 2, 1/2, 0, 2⟩] := by
  norm_num [run, runFrom, add_point, check_reversal, initState, extract_all_cycles,
    extract_new_cycles, extRev, scanBuffer, halfCycles, dropStopper, format_output]

/-- Claim C2 (divergence evaluation): on the reversal buffer of the series
`[0, 100, 10, 40, 5, 100]` the implemented scan (index kept stationary after a
removal) closes only the full cycle over `(10, 40)` and then stops, while the
restart-from-position-0 scan of the spec additionally closes the full cycle
over the pair at indices 1 and 4 that the removal exposed: the two strategies
do not produce the same record sequence.  Moreover, on the repository's own
`TEST_CASE_2` fixture the code produces `tc2_actual` (with the ranges 18 and
14 only as unclosed half cycles), not the `tc2_expected` list its own test
asserts (where the range-14 cycle closes fully with count 1.0): the
stationary scan misses ranges that removals expose at earlier positions. -/
theorem c2_stationary_not_restart :
    (scanBuffer [] [((0:ℤ), (0:ℚ)), (1, 100), (2, 10), (3, 40), (4, 5), (5, 100)]).1 =
      [⟨30, 25, 1, 2, 3⟩] ∧
    (scanRestart [((0:ℤ), (0:ℚ)), (1, 100), (2, 10), (3, 40), (4, 5), (5, 100)]).1 =
      [⟨30, 25, 1, 2, 3⟩, ⟨95, 105/2, 1, 1, 4⟩] ∧
    (scanBuffer [] [((0:ℤ), (0:ℚ)), (1, 100), (2, 10), (3, 40), (4, 5), (5, 100)]).1 ≠
      (scanRestart [((0:ℤ), (0:ℚ)), (1, 100), (2, 10), (3, 40), (4, 5), (5, 100)]).1 ∧
    Option.map Prod.fst (extract_all_cycles (run tc2_series) false) = some tc2_actual ∧
    tc2_actual ≠ tc2_expected := by
  refine ⟨?_, ?_, ?_, tc2_extract_eval, ?_⟩
  · norm_num [scanBuffer, scanRestart, scanRestartFuel, format_output]
  · norm_num [scanBuffer, scanRestart, scanRestartFuel, format_output]
  · norm_num [scanBuffer, scanRestart, scanRestartFuel, format_output]
  · norm_num [tc2_actual, tc2_expected]

/-- Claim C3 (counterexample): after draining `extract_all_cycles` on the
series `[5, 0, 10]`, the ledger `_closed_cycles` holds exactly one record, the
position-0 half cycle over `(5, 0)` — a record with count 1/2, not 1. -/
theorem c3_ledger_half_counterexample :
    Option.map (fun p => p.2._closed_cycles) (extract_all_cycles (run [5, 0, 10]) false) =
      some [⟨5, 5/2, 1/2, 0, 1⟩] ∧
    ((1:ℚ)/2) ≠ 1 := by
  constructor
  · norm_num [run, runFrom, add_point, check_reversal, initState, extract_all_cycles,
      extRev, scanBuffer, halfCycles, dropStopper, format_output]
  · norm_num

/-- Claim C4 (counterexample): draining `extract_new_cycles` after the series
`[0, 10, 2]`, adding the sample `(9, 3)`, and draining again yields five
records (the two provisional half cycles of the first call are re-derived by
the second), while a single drained `extract_all_cycles` on a second machine
fed the whole series `[0, 10, 2, 9]` yields three — the concatenation is not
a permutation of the single call's output. -/
theorem c4_interleave_counterexample :
    interleavedOut [0, 10, 2] [(9, 3)] =
      some [⟨10, 5, 1/2, 0, 1⟩, ⟨8, 6, 1/2, 1, 2⟩,
            ⟨10, 5, 1/2, 0, 1⟩, ⟨8, 6, 1/2, 1, 2⟩, ⟨7, 11/2, 1/2, 2, 3⟩] ∧
    Option.map Prod.fst (extract_all_cycles (run [0, 10, 2, 9]) false) =
      some [⟨10, 5, 1/2, 0, 1⟩, ⟨8, 6, 1/2, 1, 2⟩, ⟨7, 11/2, 1/2, 2, 3⟩] ∧
    ¬ List.Perm
        [⟨10, 5, 1/2, 0, 1⟩, ⟨8, 6, 1/2, 1, 2⟩,
         ⟨10, 5, 1/2, 0, 1⟩, ⟨8, 6, 1/2, 1, 2⟩, (⟨7, 11/2, 1/2, 2, 3⟩ : Cycle)]
        [⟨10, 5, 1/2, 0, 1⟩, ⟨8, 6, 1/2, 1, 2⟩, ⟨7, 11/2, 1/2, 2, 3⟩] := by
  refine ⟨?_, ?_, fun h => absurd h.length_eq (by norm_num)⟩
  · norm_num [interleavedOut, addPairs, run, runFrom, runPairs, add_point, check_reversal,
      initState, extract_new_cycles, extRev, scanBuffer, halfCycles, dropStopper, format_output]
  · norm_num [run, runFrom, add_point, check_reversal, initState, extract_all_cycles,
      extRev, scanBuffer, halfCycles, dropStopper, format_output]

/-- Claim C6 (counterexample): duplicating the value `1` between the two
distinct values of the series `[1, 3]` gives `[1, 1, 3]`, whose logical
reversal sequence has values `[1, 3]` while the collapsed series `[1, 3]`
reports only `[1]`: the duplicate arrives as the second sample, where
`_check_reversal` has no plateau check, so the sequences are not identical. -/
theorem c6_plateau_counterexample :
    reversals (run [1, 1, 3]) = [((0:ℤ), (1:ℚ)), (2, 3)] ∧
    reversals (run [1, 3]) = [((0:ℤ), (1:ℚ))] ∧
    mapVal (reversals (run [1, 1, 3])) ≠ mapVal (reversals (run [1, 3])) := by
  refine ⟨?_, ?_, ?_⟩ <;>
    norm_num [run, runFrom, add_point, check_reversal, initState, reversals, mapVal]

/-- Claim C8 (counterexample): after `[1, 2]` (two samples) the read yields
only the permanent buffer — the most recently added sample `(1, 2)` is not
appended, because the stopper has not been set yet; and after `[0, 5, 3, 3]`
the provisional point is reported as `(2, 3)`, not `(3, 3)`: a trailing
plateau does not update the index of the stopper as read. -/
theorem c8_read_counterexample :
    reversals (run [1, 2]) = [((0:ℤ), (1:ℚ))] ∧
    reversals (run [1, 2]) ≠ [((0:ℤ), (1:ℚ)), (1, 2)] ∧
    reversals (run [0, 5, 3, 3]) = [((0:ℤ), (0:ℚ)), (1, 5), (2, 3)] ∧
    reversals (run [0, 5, 3, 3]) ≠ [((0:ℤ), (0:ℚ)), (1, 5), (3, 3)] := by
  refine ⟨?_, ?_, ?_, ?_⟩ <;>
    norm_num [run, runFrom, add_point, check_reversal, initState, reversals]

/-- Claim C9: `reset` restores the initial state from any prior state; on the
initial state, and after a single `add_point`, the `reversals` read is empty
and both fully drained extractions succeed (no error) with no records. -/
theorem c9_reset_empty (s : State) (x : ℚ) (i : ℤ) (ig : Bool) :
    reset s = initState ∧
    reversals initState = [] ∧
    extract_all_cycles initState ig = some ([], initState) ∧
    extract_new_cycles initState ig = some ([], initState) ∧
    reversals (add_point initState x i) = [] ∧
    extract_all_cycles (add_point initState x i) ig = some ([], add_point initState x i) ∧
    extract_new_cycles (add_point initState x i) ig = some ([], add_point initState x i) := by
  cases ig <;>
    simp [reset, initState, reversals, add_point, check_reversal,
      extract_all_cycles, extract_new_cycles, extRev, scanBuffer, halfCycles, dropStopper]

/-- `add_point` never touches the ledger. -/
theorem closed_add_point (s : State) (x : ℚ) (i : ℤ) :
    (add_point s x i)._closed_cycles = s._closed_cycles := by
  unfold add_point check_reversal
  dsimp only
  split_ifs <;> rfl

/-- Feeding samples never touches the ledger. -/
theorem closed_runFrom : ∀ (xs : List ℚ) (s : State) (i : ℤ),
    (runFrom s i xs)._closed_cycles = s._closed_cycles
  | [], _, _ => rfl
  | x :: xs, s, i =>
    (closed_runFrom xs (add_point s x i) (i + 1)).trans (closed_add_point s x i)

/-- A machine that has only seen `add_point` calls has an empty ledger. -/
theorem closed_run (xs : List ℚ) : (run xs)._closed_cycles = [] :=
  closed_runFrom xs initState 0

/-- `addPairs` never touches the ledger. -/
theorem closed_addPairs : ∀ (ps : List (ℚ × ℤ)) (s : State),
    (addPairs s ps)._closed_cycles = s._closed_cycles
  | [], _ => rfl
  | p :: ps, s =>
    (closed_addPairs ps (add_point s p.1 p.2)).trans (closed_add_point s p.1 p.2)

/-- Claim C4 (amended): on a machine whose ledger is empty — in particular on
any machine that has only received `add_point` calls — a single fully drained
`extract_new_cycles` call yields exactly the same record sequence as a fully
drained `extract_all_cycles` call would.  This is the degenerate single-call
form of the interleaving claim; the general interleaving equivalence fails
(see the counterexample), because a drained call re-emits the still-provisional
trailing half cycles non-destructively, so a later call can emit them again. -/
theorem c4_single_call_equiv (s : State) (ig : Bool) (xs : List ℚ)
    (hs : s._closed_cycles = []) :
    Option.map Prod.fst (extract_new_cycles s ig) =
      Option.map Prod.fst (extract_all_cycles s ig) ∧
    (run xs)._closed_cycles = [] := by
  refine ⟨?_, closed_run xs⟩
  unfold extract_new_cycles extract_all_cycles
  rw [hs]
  simp only [List.nil_eq, true_and, List.nil_append]
  split
  · rfl
  · cases hdrop : dropStopper (scanBuffer [] (extRev s ig)).2 s._stopper ig with
    | none => rfl
    | some rev2 => simp

/-- Witness for the amended C4 at a concrete machine with an empty ledger. -/
theorem c4_single_call_equiv_witness :
    Option.map Prod.fst (extract_new_cycles (run [0, 10, 2]) false) =
      Option.map Prod.fst (extract_all_cycles (run [0, 10, 2]) false) ∧
    (run [0, 10, 2])._closed_cycles = [] :=
  c4_single_call_equiv (run [0, 10, 2]) false [0, 10, 2] (closed_run [0, 10, 2])

/-- The scan never shrinks the buffer below two points (below its input size,
when the input is smaller): removals happen only with three points in view. -/
theorem scanB_buf_le : ∀ (right left : List Pt),
    min (left.length + right.length) 2 ≤ (scanBuffer left right).2.length
  | [], left => by
    rw [scan_short _ _ (by simp)]
    simp only [List.length_append, List.length_reverse, List.length_nil]
    omega
  | [p], left => by
    rw [scan_short _ _ (by simp)]
    simp only [List.length_append, List.length_reverse, List.length_cons, List.length_nil]
    omega
  | [p, q], left => by
    rw [scan_short _ _ (by simp)]
    simp only [List.length_append, List.length_reverse, List.length_cons, List.length_nil]
    omega
  | p1 :: p2 :: p3 :: rest, left => by
    by_cases hc : |p3.2 - p2.2| < |p2.2 - p1.2|
    · rw [scan_adv _ _ _ _ _ hc]
      have h := scanB_buf_le (p2 :: p3 :: rest) (p1 :: left)
      simp only [List.length_cons] at h ⊢
      omega
    · cases left with
      | nil =>
        rw [scan_half0 _ _ _ _ hc]
        dsimp only
        have h := scanB_buf_le (p2 :: p3 :: rest) []
        simp only [List.length_cons, List.length_nil] at h ⊢
        omega
      | cons q L =>
        rw [scan_full _ _ _ _ _ _ hc]
        dsimp only
        have h := scanB_buf_le (p3 :: rest) (q :: L)
        simp only [List.length_cons] at h ⊢
        omega

/-- If the scan emitted at least one record, the final buffer still has at
least two points. -/
theorem scanB_recs_buf : ∀ (right left : List Pt),
    (scanBuffer left right).1 ≠ [] → 2 ≤ (scanBuffer left right).2.length
  | [], left => by rw [scan_short _ _ (by simp)]; intro h; exact absurd rfl h
  | [p], left => by rw [scan_short _ _ (by simp)]; intro h; exact absurd rfl h
  | [p, q], left => by rw [scan_short _ _ (by simp)]; intro h; exact absurd rfl h
  | p1 :: p2 :: p3 :: rest, left => by
    by_cases hc : |p3.2 - p2.2| < |p2.2 - p1.2|
    · rw [scan_adv _ _ _ _ _ hc]
      exact scanB_recs_buf (p2 :: p3 :: rest) (p1 :: left)
    · cases left with
      | nil =>
        rw [scan_half0 _ _ _ _ hc]
        dsimp only
        intro _
        have h := scanB_buf_le (p2 :: p3 :: rest) []
        simp only [List.length_cons, List.length_nil] at h
        omega
      | cons q L =>
        rw [scan_full _ _ _ _ _ _ hc]
        dsimp only
        intro _
        have h := scanB_buf_le (p3 :: rest) (q :: L)
        simp only [List.length_cons] at h
        omega

/-- Every record the scan emits is a full cycle (count 1) or a position-0
half cycle (count 1/2). -/
theorem scanB_counts : ∀ (right left : List Pt) (r : Cycle),
    r ∈ (scanBuffer left right).1 → r.count = 1 ∨ r.count = 1/2
  | [], left, r => by rw [scan_short _ _ (by simp)]; intro h; simp at h
  | [p], left, r => by rw [scan_short _ _ (by simp)]; intro h; simp at h
  | [p, q], left, r => by rw [scan_short _ _ (by simp)]; intro h; simp at h
  | p1 :: p2 :: p3 :: rest, left, r => by
    by_cases hc : |p3.2 - p2.2| < |p2.2 - p1.2|
    · rw [scan_adv _ _ _ _ _ hc]
      exact scanB_counts (p2 :: p3 :: rest) (p1 :: left) r
    · cases left with
      | nil =>
        rw [scan_half0 _ _ _ _ hc]
        dsimp only
        intro h
        rcases List.mem_cons.mp h with h | h
        · right; rw [h]; rfl
        · exact scanB_counts (p2 :: p3 :: rest) [] r h
      | cons q L =>
        rw [scan_full _ _ _ _ _ _ hc]
        dsimp only
        intro h
        rcases List.mem_cons.mp h with h | h
        · left; rw [h]; rfl
        · exact scanB_counts (p3 :: rest) (q :: L) r h

/-- A successful end-of-drain stopper pop removes at most one element. -/
theorem dropStopper_some_len (b : List Pt) (stp : Option Pt) (ig : Bool) (rev2 : List Pt)
    (h : dropStopper b stp ig = some rev2) : b.length - 1 ≤ rev2.length := by
  unfold dropStopper at h
  split_ifs at h with hig
  · cases h; omega
  · cases hb : b.getLast? with
    | none => rw [hb] at h; cases h
    | some lastP =>
      rw [hb] at h
      dsimp only at h
      cases stp with
      | none => cases h; omega
      | some p =>
        dsimp only at h
        split_ifs at h <;> cases h
        · simp only [List.length_dropLast]; omega
        · omega

/-- The end-of-drain access `self._reversals[-1]` fails only on an empty
buffer with `ignore_stopper` false. -/
theorem dropStopper_none (b : List Pt) (stp : Option Pt) (ig : Bool)
    (h : dropStopper b stp ig = none) : b = [] ∧ ig = false := by
  unfold dropStopper at h
  split_ifs at h with hig
  refine ⟨?_, by simpa using hig⟩
  cases hb : b.getLast? with
  | none => exact List.getLast?_eq_none_iff.mp hb
  | some lastP =>
    rw [hb] at h
    dsimp only at h
    cases stp with
    | none => cases h
    | some p =>
      dsimp only at h
      split_ifs at h

/-- The permanent buffer never shrinks when the stopper is appended. -/
theorem extRev_len (s : State) (ig : Bool) :
    s._reversals.length ≤ (extRev s ig).length := by
  unfold extRev
  split_ifs
  · exact le_refl _
  · simp only [List.length_append]
    omega

/-- If the scan emitted a record, the post-drain buffer is still non-empty
even after the stopper pop. -/
theorem rev2_ne_nil_of_recs (s : State) (ig : Bool) (rev2 : List Pt)
    (hrecs : (scanBuffer [] (extRev s ig)).1 ≠ [])
    (hdrop : dropStopper (scanBuffer [] (extRev s ig)).2 s._stopper ig = some rev2) :
    rev2 ≠ [] := by
  have h2 := scanB_recs_buf (extRev s ig) [] hrecs
  have h3 := dropStopper_some_len _ _ _ _ hdrop
  intro hrev2
  rw [hrev2] at h3
  simp only [List.length_nil, Nat.le_zero] at h3
  omega

/-- If the permanent buffer is non-empty before a drain, it is non-empty
after: the stopper pop can only fire when the stopper was appended, and then
the scanned buffer had at least two points. -/
theorem rev2_ne_nil (s : State) (ig : Bool) (rev2 : List Pt)
    (hrev : s._reversals ≠ [])
    (hdrop : dropStopper (scanBuffer [] (extRev s ig)).2 s._stopper ig = some rev2) :
    rev2 ≠ [] := by
  have hrevlen : 0 < s._reversals.length := List.length_pos.mpr hrev
  have hext := extRev_len s ig
  intro hrev2
  by_cases hig : ig = true
  · unfold dropStopper at hdrop
    rw [if_pos hig] at hdrop
    injection hdrop with hh
    rw [hrev2] at hh
    have hb := scanB_buf_le (extRev s ig) []
    rw [hh] at hb
    simp only [List.length_nil, List.length_cons, Nat.le_zero] at hb
    omega
  · cases hstp : s._stopper with
    | none =>
      unfold dropStopper at hdrop
      rw [if_neg hig, hstp] at hdrop
      cases hb : (scanBuffer [] (extRev s ig)).2.getLast? with
      | none => rw [hb] at hdrop; exact absurd hdrop (by simp)
      | some lastP =>
        rw [hb] at hdrop
        dsimp only at hdrop
        injection hdrop with hh
        rw [hrev2] at hh
        rw [hh] at hb
        simp at hb
    | some p =>
      have hlen2 : 2 ≤ (extRev s ig).length := by
        unfold extRev
        rw [if_neg hig, hstp]
        simp only [Option.toList_some, List.length_append, List.length_cons, List.length_nil]
        omega
      have hb := scanB_buf_le (extRev s ig) []
      have h3 := dropStopper_some_len _ _ _ _ hdrop
      rw [hrev2] at h3
      simp only [List.length_nil, Nat.le_zero] at h3
      simp only [List.length_nil, Nat.zero_add] at hb
      omega

/-- The initial state satisfies the invariants. -/
theorem good_init : GoodState initState := by
  constructor
  · intro h
    exact absurd rfl h
  · intro r hr
    simp [initState] at hr

/-- `add_point` preserves the invariants: the ledger is untouched and the
reversal buffer only ever grows. -/
theorem good_add (s : State) (x : ℚ) (i : ℤ) (hg : GoodState s) :
    GoodState (add_point s x i) := by
  obtain ⟨h1, h2⟩ := hg
  constructor
  · intro hc
    rw [closed_add_point] at hc
    have hrev := h1 hc
    unfold add_point check_reversal
    dsimp only
    split_ifs <;> simp_all
  · intro r hr
    rw [closed_add_point] at hr
    exact h2 r hr

/-- A drained `extract_all_cycles` preserves the invariants. -/
theorem good_extract_all (s s' : State) (ig : Bool) (out : List Cycle)
    (hg : GoodState s) (he : extract_all_cycles s ig = some (out, s')) : GoodState s' := by
  obtain ⟨h1, h2⟩ := hg
  unfold extract_all_cycles at he
  by_cases hguard : s._closed_cycles = [] ∧ (extRev s ig).length < 1
  · rw [if_pos hguard] at he
    simp only [Option.some.injEq, Prod.mk.injEq] at he
    obtain ⟨-, hs'⟩ := he
    subst hs'
    constructor
    · intro hc
      exact absurd hguard.1 (by simpa using hc)
    · intro r hr
      exact h2 r (by simpa using hr)
  · rw [if_neg hguard] at he
    dsimp only at he
    cases hdrop : dropStopper (scanBuffer [] (extRev s ig)).2 s._stopper ig with
    | none => rw [hdrop] at he; cases he
    | some rev2 =>
      rw [hdrop] at he
      simp only [Option.some.injEq, Prod.mk.injEq] at he
      obtain ⟨-, hs'⟩ := he
      subst hs'
      constructor
      · intro hc
        dsimp only at hc ⊢
        by_cases hrecs : (scanBuffer [] (extRev s ig)).1 = []
        · have hcl : s._closed_cycles ≠ [] := by
            rw [hrecs] at hc
            simpa using hc
          exact rev2_ne_nil s ig rev2 (h1 hcl) hdrop
        · exact rev2_ne_nil_of_recs s ig rev2 hrecs hdrop
      · intro r hr
        dsimp only at hr
        rcases List.mem_append.mp hr with h | h
        · exact h2 r h
        · exact scanB_counts _ _ r h

/-- A drained `extract_new_cycles` preserves the invariants. -/
theorem good_extract_new (s s' : State) (ig : Bool) (out : List Cycle)
    (hg : GoodState s) (he : extract_new_cycles s ig = some (out, s')) : GoodState s' := by
  obtain ⟨h1, h2⟩ := hg
  unfold extract_new_cycles at he
  by_cases hguard : (extRev s ig).length < 1
  · rw [if_pos hguard] at he
    simp only [Option.some.injEq, Prod.mk.injEq] at he
    obtain ⟨-, hs'⟩ := he
    subst hs'
    constructor
    · intro hc
      dsimp only at hc
      have hrev := h1 hc
      have h4 := extRev_len s ig
      have h5 := List.length_pos.mpr hrev
      exact absurd hguard (by omega)
    · intro r hr
      exact h2 r (by simpa using hr)
  · rw [if_neg hguard] at he
    dsimp only at he
    cases hdrop : dropStopper (scanBuffer [] (extRev s ig)).2 s._stopper ig with
    | none => rw [hdrop] at he; cases he
    | some rev2 =>
      rw [hdrop] at he
      simp only [Option.some.injEq, Prod.mk.injEq] at he
      obtain ⟨-, hs'⟩ := he
      subst hs'
      constructor
      · intro hc
        dsimp only at hc ⊢
        exact rev2_ne_nil s ig rev2 (h1 hc) hdrop
      · intro r hr
        exact h2 r hr

/-- Every reachable state satisfies the invariants. -/
theorem reachable_good : ∀ (s : State), Reachable s → GoodState s := by
  intro s h
  induction h with
  | init => exact good_init
  | add s x idx _ ih => exact good_add s x idx ih
  | reset_ s _ _ => exact good_init
  | extAll s s' ig out _ he ih => exact good_extract_all s s' ig out ih he
  | extNew s s' ig out _ he ih => exact good_extract_new s s' ig out ih he

/-- On a good state a drained `extract_all_cycles` never raises: the only
failure point, the trailing `self._reversals[-1]`, is reached with a
non-empty buffer. -/
theorem extract_all_isSome (s : State) (ig : Bool) (hg : GoodState s) :
    (extract_all_cycles s ig).isSome := by
  unfold extract_all_cycles
  by_cases hguard : s._closed_cycles = [] ∧ (extRev s ig).length < 1
  · rw [if_pos hguard]
    rfl
  · rw [if_neg hguard]
    dsimp only
    cases hdrop : dropStopper (scanBuffer [] (extRev s ig)).2 s._stopper ig with
    | none =>
      obtain ⟨hb, -⟩ := dropStopper_none _ _ _ hdrop
      have hrev0 : 1 ≤ (extRev s ig).length := by
        rcases not_and_or.mp hguard with hcl | hlen
        · have hrev := hg.1 (by simpa using hcl)
          have := List.length_pos.mpr hrev
          have := extRev_len s ig
          omega
        · omega
      have hble := scanB_buf_le (extRev s ig) []
      rw [hb] at hble
      simp only [List.length_nil, Nat.le_zero, Nat.zero_add] at hble
      omega
    | some rev2 => rfl

/-- On a good state a drained `extract_new_cycles` never raises. -/
theorem extract_new_isSome (s : State) (ig : Bool) :
    (extract_new_cycles s ig).isSome := by
  unfold extract_new_cycles
  by_cases hguard : (extRev s ig).length < 1
  · rw [if_pos hguard]
    rfl
  · rw [if_neg hguard]
    dsimp only
    cases hdrop : dropStopper (scanBuffer [] (extRev s ig)).2 s._stopper ig with
    | none =>
      obtain ⟨hb, -⟩ := dropStopper_none _ _ _ hdrop
      have hble := scanB_buf_le (extRev s ig) []
      rw [hb] at hble
      simp only [List.length_nil, Nat.le_zero, Nat.zero_add] at hble
      omega
    | some rev2 => rfl

/-- Claim C10: in every reachable state both drained extractors succeed (the
trailing `self._reversals[-1]` access and the end-of-call stopper pop are in
bounds), and the state with a non-empty ledger but an empty reversal buffer —
which would make `extract_all_cycles` pass its guard and then index an empty
list — is unreachable. -/
theorem c10_extraction_safe (s : State) (hs : Reachable s) (ig : Bool) :
    (extract_all_cycles s ig).isSome ∧ (extract_new_cycles s ig).isSome ∧
    (s._closed_cycles ≠ [] → s._reversals ≠ []) :=
  ⟨extract_all_isSome s ig (reachable_good s hs),
   extract_new_isSome s ig,
   (reachable_good s hs).1⟩

/-- Witness for C10 at the initial state. -/
theorem c10_extraction_safe_witness :
    (extract_all_cycles initState false).isSome ∧
    (extract_new_cycles initState false).isSome :=
  ⟨(c10_extraction_safe initState Reachable.init false).1,
   (c10_extraction_safe initState Reachable.init false).2.1⟩

/-- Claim C3 (amended): in every reachable state the ledger holds only
records with count 1 (full cycles) or count 1/2 (the finalized position-0
half cycles), and a drained `extract_all_cycles` appends to the ledger
exactly the closure scan's records — the trailing provisional half cycles
are never ledgered. -/
theorem c3_ledger_counts (s : State) (hs : Reachable s) :
    (∀ r ∈ s._closed_cycles, r.count = 1 ∨ r.count = 1/2) ∧
    ∀ (ig : Bool) (out : List Cycle) (s' : State),
      extract_all_cycles s ig = some (out, s') →
      s'._closed_cycles = s._closed_cycles ++ (scanBuffer [] (extRev s ig)).1 := by
  refine ⟨(reachable_good s hs).2, ?_⟩
  intro ig out s' he
  unfold extract_all_cycles at he
  by_cases hguard : s._closed_cycles = [] ∧ (extRev s ig).length < 1
  · rw [if_pos hguard] at he
    simp only [Option.some.injEq, Prod.mk.injEq] at he
    obtain ⟨-, hs'⟩ := he
    subst hs'
    have hnil : extRev s ig = [] := List.length_eq_zero.mp (by omega)
    rw [hnil, scan_short [] [] (by simp)]
    simp [hguard.1]
  · rw [if_neg hguard] at he
    dsimp only at he
    cases hdrop : dropStopper (scanBuffer [] (extRev s ig)).2 s._stopper ig with
    | none => rw [hdrop] at he; cases he
    | some rev2 =>
      rw [hdrop] at he
      simp only [Option.some.injEq, Prod.mk.injEq] at he
      obtain ⟨-, hs'⟩ := he
      subst hs'
      rfl

/-- Witness for the amended C3: a concrete drained call on the initial state,
with every hypothesis discharged. -/
theorem c3_ledger_counts_witness :
    initState._closed_cycles =
      initState._closed_cycles ++ (scanBuffer [] (extRev initState false)).1 :=
  (c3_ledger_counts initState Reachable.init).2 false [] initState
    (by simp [extract_all_cycles, extRev, initState, scanBuffer, halfCycles, dropStopper])

/-- `add_point` increments the sample count by one in every branch. -/
theorem history_add_point (s : State) (x : ℚ) (i : ℤ) :
    (add_point s x i)._history_length = s._history_length + 1 := by
  unfold add_point check_reversal
  dsimp only
  split_ifs <;> rfl

/-- The sample count after feeding a list of samples. -/
theorem history_addPairs : ∀ (ps : List (ℚ × ℤ)) (s : State),
    (addPairs s ps)._history_length = s._history_length + ps.length
  | [], _ => rfl
  | p :: ps, s => by
    have h1 : (addPairs s (p :: ps))._history_length =
        (add_point s p.1 p.2)._history_length + ps.length :=
      history_addPairs ps (add_point s p.1 p.2)
    rw [h1, history_add_point]
    simp only [List.length_cons]
    omega

/-- The machine/fold relation holds initially. -/
theorem stopRel_init : StopRel initState (0, 0, none) :=
  ⟨rfl, fun h => by simp [initState] at h, rfl⟩

/-- One `add_point` call keeps the machine state and the `stopperStep` fold
state related. -/
theorem stopRel_step (s : State) (f : ℕ × ℚ × Option Pt) (x : ℚ) (i : ℤ)
    (hr : StopRel s f) : StopRel (add_point s x i) (stopperStep f (x, i)) := by
  obtain ⟨hf1, hf2, hf3⟩ := hr
  unfold StopRel stopperStep add_point check_reversal
  dsimp only
  by_cases h0 : s._history_length = 0
  · rw [if_pos h0, if_pos (show f.1 < 2 by omega)]
    exact ⟨show f.1 + 1 = s._history_length + 1 by omega,
           fun h => absurd h (show ¬ 2 ≤ s._history_length + 1 by omega),
           hf3⟩
  · by_cases h1 : s._history_length = 1
    · rw [if_neg h0, if_pos h1, if_pos (show f.1 < 2 by omega)]
      exact ⟨show f.1 + 1 = s._history_length + 1 by omega, fun _ => rfl, hf3⟩
    · have hxc : f.2.1 = s._x := hf2 (by omega)
      rw [if_neg h0, if_neg h1, if_neg (show ¬ f.1 < 2 by omega)]
      by_cases hp : x = s._x
      · rw [if_pos hp, if_pos (show x = f.2.1 by rw [hxc]; exact hp)]
        exact ⟨show f.1 + 1 = s._history_length + 1 by omega,
               fun _ => show f.2.1 = s._x from hxc, hf3⟩
      · rw [if_neg hp, if_neg (show ¬ x = f.2.1 by rw [hxc]; exact hp)]
        exact ⟨show f.1 + 1 = s._history_length + 1 by omega, fun _ => rfl, rfl⟩

/-- The machine/fold relation is preserved over any sample list. -/
theorem stopRel_fold : ∀ (ps : List (ℚ × ℤ)) (s : State) (f : ℕ × ℚ × Option Pt),
    StopRel s f → StopRel (addPairs s ps) (ps.foldl stopperStep f)
  | [], _, _, h => h
  | p :: ps, s, f, h => stopRel_fold ps (add_point s p.1 p.2) (stopperStep f p)
      (stopRel_step s f p.1 p.2 h)

/-- Claim C8 (amended): with at least two samples, the `reversals` read is
the permanent buffer followed by the stopper (when set), and the stopper is
exactly the last sample that arrived when at least two samples had been seen
and whose value differed from the current value — characterised by the
sample-list fold `stopperSpec`, independent of the machine's bookkeeping. -/
theorem c8_read_structure (ps : List (ℚ × ℤ)) (h2 : 2 ≤ ps.length) :
    reversals (runPairs ps) = (runPairs ps)._reversals ++ ((runPairs ps)._stopper).toList ∧
    (runPairs ps)._stopper = stopperSpec ps := by
  have hrel : StopRel (runPairs ps) (ps.foldl stopperStep (0, 0, none)) :=
    stopRel_fold ps initState (0, 0, none) stopRel_init
  have hh : (runPairs ps)._history_length = ps.length := by
    have h := history_addPairs ps initState
    simp only [initState, Nat.zero_add] at h
    exact h
  constructor
  · unfold reversals
    rw [if_neg (by omega)]
  · exact hrel.2.2.symm

/-- Witness for the amended C8 on the series `[0, 5, 3, 3]` (whose last
sample is a trailing plateau). -/
theorem c8_read_structure_witness :
    reversals (runPairs [(0, 0), (5, 1), (3, 2), (3, 3)]) =
      (runPairs [(0, 0), (5, 1), (3, 2), (3, 3)])._reversals ++
        ((runPairs [(0, 0), (5, 1), (3, 2), (3, 3)])._stopper).toList ∧
    (runPairs [(0, 0), (5, 1), (3, 2), (3, 3)])._stopper =
      stopperSpec [(0, 0), (5, 1), (3, 2), (3, 3)] :=
  c8_read_structure [(0, 0), (5, 1), (3, 2), (3, 3)] (by norm_num)

/-- `SimR` is reflexive on states with at least two samples. -/
theorem simR_refl (s : State) (h : 2 ≤ s._history_length) : SimR s s :=
  ⟨rfl, rfl, rfl, rfl, rfl, h, h⟩

/-- `SimR` is transitive. -/
theorem simR_trans {a b c : State} (h1 : SimR a b) (h2 : SimR b c) : SimR a c := by
  obtain ⟨x1, x2, x3, x4, x5, x6, x7⟩ := h1
  obtain ⟨y1, y2, y3, y4, y5, y6, y7⟩ := h2
  exact ⟨x1.trans y1, x2.trans y2, x3.trans y3, x4.trans y4, x5.trans y5, x6, y7⟩

/-- A plateau sample (value equal to the current `_x`, arriving with at least
two samples seen) leaves the state `SimR`-related to the unchanged state: it
only updates `_idx_last`, `_mean` and the count. -/
theorem simR_plateau (s : State) (x : ℚ) (i : ℤ) (hh : 2 ≤ s._history_length)
    (hx : x = s._x) : SimR (add_point s x i) s := by
  unfold add_point check_reversal
  dsimp only
  rw [if_neg (by omega : ¬ s._history_length = 0), if_neg (by omega : ¬ s._history_length = 1),
      if_pos hx]
  exact ⟨rfl, rfl, rfl, rfl, rfl, by dsimp only; omega, hh⟩

/-- Feeding the same sample to two `SimR`-related states preserves the
relation. -/
theorem simR_step (s t : State) (x : ℚ) (i : ℤ) (hr : SimR s t) :
    SimR (add_point s x i) (add_point t x i) := by
  obtain ⟨hx, hxl, hd, hstp, hrev, hs2, ht2⟩ := hr
  unfold add_point check_reversal
  dsimp only
  rw [if_neg (by omega : ¬ s._history_length = 0), if_neg (by omega : ¬ s._history_length = 1),
      if_neg (by omega : ¬ t._history_length = 0), if_neg (by omega : ¬ t._history_length = 1)]
  by_cases hp : x = s._x
  · rw [if_pos hp, if_pos (show x = t._x by rw [← hx]; exact hp)]
    exact ⟨hx, hxl, hd, hstp, hrev,
      show 2 ≤ s._history_length + 1 by omega, show 2 ≤ t._history_length + 1 by omega⟩
  · rw [if_neg hp, if_neg (show ¬ x = t._x by rw [← hx]; exact hp)]
    refine ⟨rfl, hx, by rw [hx], rfl, ?_,
      show 2 ≤ s._history_length + 1 by omega, show 2 ≤ t._history_length + 1 by omega⟩
    dsimp only
    have hcond : (s._d_last * (x - s._x) < 0) ↔ (t._d_last * (x - t._x) < 0) := by
      rw [hd, hx]
    unfold mapVal at hrev ⊢
    split_ifs with hc1 hc2 hc2
    · rw [List.map_append, List.map_append, hrev]
      simp only [List.map_cons, List.map_nil]
      rw [hx]
    · exact absurd (hcond.mp hc1) hc2
    · exact absurd (hcond.mpr hc2) hc1
    · exact hrev

/-- A whole run of plateau samples leaves the state `SimR`-related to the
state before the run. -/
theorem simR_addPlateaus : ∀ (runp : List (ℚ × ℤ)) (s : State), 2 ≤ s._history_length →
    (∀ p ∈ runp, p.1 = s._x) → SimR (addPairs s runp) s
  | [], s, h2, _ => simR_refl s h2
  | p :: rest, s, h2, hrun => by
    have hp : p.1 = s._x := hrun p (List.mem_cons_self p rest)
    have hstep : SimR (add_point s p.1 p.2) s := simR_plateau s p.1 p.2 h2 hp
    have hrest : SimR (addPairs (add_point s p.1 p.2) rest) (add_point s p.1 p.2) :=
      simR_addPlateaus rest (add_point s p.1 p.2) hstep.2.2.2.2.2.1
        (by
          intro q hq
          rw [hstep.1]
          exact hrun q (List.mem_cons_of_mem p hq))
    exact simR_trans hrest hstep

/-- `SimR` is preserved by feeding the same further samples to both states. -/
theorem simR_fold : ∀ (B : List (ℚ × ℤ)) (s t : State),
    SimR s t → SimR (addPairs s B) (addPairs t B)
  | [], _, _, h => h
  | p :: B, s, t, h => simR_fold B (add_point s p.1 p.2) (add_point t p.1 p.2)
      (simR_step s t p.1 p.2 h)

/-- Claim C6 (amended): inserting a run of plateau samples after at least two
samples have been seen changes neither the value sequence of the logical
reversal read nor the stopper (index included), compared to the same series
with the run removed. -/
theorem c6_plateau_invariance (A runp B : List (ℚ × ℤ)) (hA : 2 ≤ A.length)
    (hrun : ∀ p ∈ runp, p.1 = (runPairs A)._x) :
    mapVal (reversals (runPairs (A ++ runp ++ B))) =
      mapVal (reversals (runPairs (A ++ B))) ∧
    (runPairs (A ++ runp ++ B))._stopper = (runPairs (A ++ B))._stopper := by
  have hhA : (runPairs A)._history_length = A.length := by
    have h := history_addPairs A initState
    simp only [initState, Nat.zero_add] at h
    exact h
  have hsim0 : SimR (addPairs (runPairs A) runp) (runPairs A) :=
    simR_addPlateaus runp (runPairs A) (by omega) hrun
  have hsim : SimR (addPairs (addPairs (runPairs A) runp) B) (addPairs (runPairs A) B) :=
    simR_fold B _ _ hsim0
  have hsplit1 : runPairs (A ++ runp ++ B) = addPairs (addPairs (runPairs A) runp) B := by
    unfold runPairs addPairs
    rw [List.foldl_append, List.foldl_append]
  have hsplit2 : runPairs (A ++ B) = addPairs (runPairs A) B := by
    unfold runPairs addPairs
    rw [List.foldl_append]
  rw [hsplit1, hsplit2]
  obtain ⟨hx, hxl, hd, hstp, hrev, hs2, ht2⟩ := hsim
  refine ⟨?_, hstp⟩
  unfold reversals
  rw [if_neg (by omega), if_neg (by omega)]
  unfold mapVal at hrev ⊢
  rw [List.map_append, List.map_append, hstp, hrev]

/-- Witness for the amended C6: duplicating the value 5 inside
`[0, 5, 3]` (with original indices kept) changes nothing. -/
theorem c6_plateau_invariance_witness :
    mapVal (reversals (runPairs ([(0, 0), (5, 1)] ++ [(5, 2)] ++ [(3, 3)]))) =
      mapVal (reversals (runPairs ([(0, 0), (5, 1)] ++ [(3, 3)]))) ∧
    (runPairs ([(0, 0), (5, 1)] ++ [(5, 2)] ++ [(3, 3)]))._stopper =
      (runPairs ([(0, 0), (5, 1)] ++ [(3, 3)]))._stopper :=
  c6_plateau_invariance [(0, 0), (5, 1)] [(5, 2)] [(3, 3)] (by norm_num)
    (by
      intro p hp
      simp only [List.mem_singleton] at hp
      subst hp
      norm_num [runPairs, add_point, check_reversal, initState])

end Dropflow
